import Mathlib

/-!
Shallow embedding of the iterator-adapter library in `zipper.h` and
`enumerator.h` (the Combiner `Zipper` and the Indexer `Enumerator`), and
theorems settling the specification's claims about it.

Source containers are modelled as lists over a common element type; a C++
iterator into a container is modelled as its offset from the container's
start, so iterator equality is offset equality.  `size_t` values are
modelled as natural numbers with arithmetic reduced modulo `2 ^ 64`
(the source header lists only LP64/LLP64 compilers, where `size_t` is
64 bits wide).
-/

namespace IzadoriCpp

/-- Width modulus of `size_t`: `2 ^ 64`. -/
def W : Nat := 2 ^ 64

/-- Conversion applied by C++ when a negative signed argument is passed where
`size_t` is expected (as in `Enumerate(v, 10, -1)`): reduction modulo
`2 ^ 64`. -/
def toSizeT (v : Int) : Nat := (v % (W : Int)).toNat

/-- Embedding of the adapter `Zipper<Containers...>` (zipper.h line 48): the
member `tpl_` holds references to the N source containers. -/
structure Zipper (α : Type) where
  tpl_ : List (List α)
deriving DecidableEq

/-- Embedding of `Zipper::Iterator` (zipper.h line 61): its member `iter_` is
the tuple of per-source container iterators, one position per source. -/
structure Zipper.Iterator where
  iter_ : List Nat
deriving DecidableEq

/-- Embedding of `Zipper::EndIterator` (zipper.h line 55). -/
structure Zipper.EndIterator where
  iter_ : List Nat
deriving DecidableEq

/-- Embedding of `Zipper::Iterator::Increment` (zipper.h lines 99-104): every
per-source iterator is incremented once, unconditionally. -/
def Zipper.Iterator.increment (it : Zipper.Iterator) : Zipper.Iterator :=
  ⟨it.iter_.map (· + 1)⟩

/-- Embedding of `Zipper::Iterator::operator==(const Iterator &)` (zipper.h
lines 64-67): `std::tuple` equality, i.e. all components pairwise equal. -/
def Zipper.Iterator.eqIter (a b : Zipper.Iterator) : Bool :=
  a.iter_ == b.iter_

/-- Embedding of `Zipper::Iterator::IsEnd` (zipper.h lines 132-138), the body
of `operator==(const EndIterator &)` (lines 69-72): the componentwise
comparisons are collected into the array `chk` and combined with
`std::any_of`. -/
def Zipper.Iterator.isEnd (a : Zipper.Iterator) (e : Zipper.EndIterator) : Bool :=
  ((a.iter_.zip e.iter_).map (fun p => p.1 == p.2)).any (fun x => x)

/-- Embedding of `Zipper::begin` (zipper.h lines 147-150) via
`Iterator::Begin` (lines 118-123): each source's own start position. -/
def Zipper.begin {α : Type} (z : Zipper α) : Zipper.Iterator :=
  ⟨z.tpl_.map (fun _ => 0)⟩

/-- Embedding of `Zipper::end` (zipper.h lines 152-155) via `Iterator::End`
(lines 125-130): each source's own end position. -/
def Zipper.endIt {α : Type} (z : Zipper α) : Zipper.EndIterator :=
  ⟨z.tpl_.map List.length⟩

/-- Embedding of `Zipper::size` (zipper.h lines 157-169): `std::min` over the
initializer list of the N source lengths. -/
def Zipper.size {α : Type} (z : Zipper α) : Nat :=
  match z.tpl_.map List.length with
  | [] => 0
  | l :: ls => ls.foldl min l

/-- Embedding of `Zipper::Iterator::operator*` via `GetValue` (zipper.h lines
90-94 and 112-116): the tuple of references `(*it1, ..., *itN)`.  A reference
is modelled by the element it denotes; a position at or past a source's end
has no referent (`none`), the undefined-behavior case of the C++. -/
def Zipper.getValue {α : Type} (z : Zipper α) (it : Zipper.Iterator) : List (Option α) :=
  (z.tpl_.zip it.iter_).map (fun p => p.1[p.2]?)

/-- Embedding of an assignment through the j-th component of the reference
tuple returned by `operator*`: that component aliases element `it.iter_[j]` of
source `j`, so the store lands in the underlying container and everything else
is untouched. -/
def Zipper.writeThrough {α : Type} (z : Zipper α) (it : Zipper.Iterator) (j : Nat) (v : α) :
    Zipper α :=
  ⟨z.tpl_.set j ((z.tpl_.getD j []).set (it.iter_.getD j 0) v)⟩

/-- Iterated `Increment`: the cursor after `n` advances. -/
def Zipper.Iterator.incN : Nat → Zipper.Iterator → Zipper.Iterator
  | 0, it => it
  | n + 1, it => Zipper.Iterator.incN n it.increment

/-- Embedding of the primary `Enumerator<Container>` (enumerator.h line 32):
a reference to one container plus the `size_t` members `initial_index_` and
`step_` (enumerator.h lines 46-47, 170-184). -/
structure Enumerator (α : Type) where
  ref_ : List α
  initial_index_ : Nat
  step_ : Nat
deriving DecidableEq

/-- Embedding of `Enumerator::Iterator` (enumerator.h line 52): running index
`index_` and increment `step_`, both `size_t` (lines 96-105), and the
container iterator `iter_` (line 110). -/
structure Enumerator.Iterator where
  index_ : Nat
  step_ : Nat
  iter_ : Nat
deriving DecidableEq

/-- Embedding of `Enumerator::Iterator::operator++` (enumerator.h lines
79-84): `index_ += step_` in `size_t` arithmetic, then `++iter_`. -/
def Enumerator.Iterator.inc (it : Enumerator.Iterator) : Enumerator.Iterator :=
  ⟨(it.index_ + it.step_) % W, it.step_, it.iter_ + 1⟩

/-- Embedding of `Enumerator::Iterator::operator==` (enumerator.h lines
63-66): only the container iterators are compared; `index_` and `step_` are
not consulted. -/
def Enumerator.Iterator.eqIter (a b : Enumerator.Iterator) : Bool :=
  a.iter_ == b.iter_

/-- Embedding of `Enumerator::begin` (enumerator.h lines 155-158) via
`Iterator::Begin` (lines 120-127). -/
def Enumerator.begin {α : Type} (e : Enumerator α) : Enumerator.Iterator :=
  ⟨e.initial_index_, e.step_, 0⟩

/-- Embedding of `Enumerator::end` (enumerator.h lines 165-168) via
`Iterator::End` (lines 136-143): `iter_ = std::end(container)` and
`index_ = container.size()`. -/
def Enumerator.endIt {α : Type} (e : Enumerator α) : Enumerator.Iterator :=
  ⟨e.ref_.length, e.step_, e.ref_.length⟩

/-- Embedding of `Enumerator::Iterator::operator*` (enumerator.h lines 91-94):
the pair `(index_, *iter_)`. -/
def Enumerator.deref {α : Type} (e : Enumerator α) (it : Enumerator.Iterator) :
    Nat × Option α :=
  (it.index_, e.ref_[it.iter_]?)

/-- Iterated `operator++` for `Enumerator::Iterator`. -/
def Enumerator.Iterator.incN : Nat → Enumerator.Iterator → Enumerator.Iterator
  | 0, it => it
  | n + 1, it => Enumerator.Iterator.incN n it.inc

/-- Embedding of the specialization `Enumerator<Zipper<Containers...>>`
(enumerator.h line 193). -/
structure ZipEnumerator (α : Type) where
  zipper_ : Zipper α
  initial_index_ : Nat
  step_ : Nat
deriving DecidableEq

/-- Embedding of the specialization's `Iterator` (enumerator.h line 212):
`iter_` is a `Zipper<...>::iterator`, i.e. a live `Zipper::Iterator`. -/
structure ZipEnumerator.Iterator where
  index_ : Nat
  step_ : Nat
  iter_ : Zipper.Iterator
deriving DecidableEq

/-- Embedding of `operator++` of the specialization (enumerator.h lines
239-244). -/
def ZipEnumerator.Iterator.inc (it : ZipEnumerator.Iterator) : ZipEnumerator.Iterator :=
  ⟨(it.index_ + it.step_) % W, it.step_, it.iter_.increment⟩

/-- Embedding of `operator==` of the specialization (enumerator.h lines
223-226): it delegates to `Zipper::Iterator::operator==(const Iterator &)`,
the tuple (all-components) equality of the per-source iterators; the numeric
index is not consulted. -/
def ZipEnumerator.Iterator.eqIter (a b : ZipEnumerator.Iterator) : Bool :=
  a.iter_.eqIter b.iter_

/-- Embedding of the specialization's `begin` (enumerator.h lines 315-318)
via `Iterator::Begin` (lines 280-287). -/
def ZipEnumerator.begin {α : Type} (e : ZipEnumerator α) : ZipEnumerator.Iterator :=
  ⟨e.initial_index_, e.step_, e.zipper_.begin⟩

/-- Embedding of the specialization's `end` (enumerator.h lines 325-328) via
`Iterator::End` (lines 296-303).  The statement `it.iter_ = zipper.end();`
there is ill-formed C++: it assigns a `Zipper::EndIterator` to a member of
type `Zipper::Iterator`, and no conversion between the two classes exists, so
instantiating `End` is a compile error (g++ 13: no match for `operator=`).
This definition models the written intent: the stored per-source positions
are the end positions held by `zipper.end()`, and `index_ = zipper.size()`. -/
def ZipEnumerator.endIt {α : Type} (e : ZipEnumerator α) : ZipEnumerator.Iterator :=
  ⟨e.zipper_.size, e.step_, ⟨(e.zipper_.endIt).iter_⟩⟩

/-- Embedding of the specialization's `operator*` (enumerator.h lines
251-254): `std::make_tuple(index_, *iter_)`. -/
def ZipEnumerator.deref {α : Type} (e : ZipEnumerator α) (it : ZipEnumerator.Iterator) :
    Nat × List (Option α) :=
  (it.index_, e.zipper_.getValue it.iter_)

/-- Iterated `operator++` for the specialization's `Iterator`. -/
def ZipEnumerator.Iterator.incN : Nat → ZipEnumerator.Iterator → ZipEnumerator.Iterator
  | 0, it => it
  | n + 1, it => ZipEnumerator.Iterator.incN n it.inc

/-! State-threaded forms of the adapter member functions.  In the C++, the
member functions `begin`, `end` and `size` read the adapter's members and
assign to none of them, and the iterator operations `operator++`,
`operator*` and the comparisons act on iterator copies and hold no reference
back to the adapter; the translations below therefore return the adapter
component unchanged, mirroring the absence of any member assignment in the
source bodies. -/

/-- State-threaded `Zipper::begin`. -/
def Zipper.beginS {α : Type} (z : Zipper α) : Zipper.Iterator × Zipper α :=
  (z.begin, z)

/-- State-threaded `Zipper::end`. -/
def Zipper.endS {α : Type} (z : Zipper α) : Zipper.EndIterator × Zipper α :=
  (z.endIt, z)

/-- State-threaded `Zipper::Iterator::operator++`. -/
def Zipper.incS {α : Type} (z : Zipper α) (it : Zipper.Iterator) :
    Zipper.Iterator × Zipper α :=
  (it.increment, z)

/-- State-threaded `Zipper::Iterator::operator*`. -/
def Zipper.getValueS {α : Type} (z : Zipper α) (it : Zipper.Iterator) :
    List (Option α) × Zipper α :=
  (z.getValue it, z)

/-- The loop body of a range-for over a `Zipper`: dereference and advance
until the cursor compares equal to the end-marker (with explicit fuel). -/
def Zipper.loop {α : Type} (z : Zipper α) : Nat → Zipper.Iterator → List (List (Option α))
  | 0, _ => []
  | fuel + 1, it =>
    if it.isEnd z.endIt then []
    else z.getValue it :: Zipper.loop z fuel it.increment

/-- One complete range-for traversal of a `Zipper`, threading the adapter
state through `begin` and `end`; the fuel `size + 1` suffices because the
loop stops after `size` iterations. -/
def Zipper.traverseS {α : Type} (z : Zipper α) : List (List (Option α)) × Zipper α :=
  (z.beginS.2.endS.2.loop (z.beginS.2.endS.2.size + 1) z.beginS.1, z.beginS.2.endS.2)

/-- State-threaded `Enumerator::begin`. -/
def Enumerator.beginS {α : Type} (e : Enumerator α) : Enumerator.Iterator × Enumerator α :=
  (e.begin, e)

/-- State-threaded `Enumerator::end`. -/
def Enumerator.endS {α : Type} (e : Enumerator α) : Enumerator.Iterator × Enumerator α :=
  (e.endIt, e)

/-- State-threaded `Enumerator::Iterator::operator++`. -/
def Enumerator.incS {α : Type} (e : Enumerator α) (it : Enumerator.Iterator) :
    Enumerator.Iterator × Enumerator α :=
  (it.inc, e)

/-- State-threaded `Enumerator::Iterator::operator*`. -/
def Enumerator.derefS {α : Type} (e : Enumerator α) (it : Enumerator.Iterator) :
    (Nat × Option α) × Enumerator α :=
  (e.deref it, e)

/-- The loop body of a range-for over an `Enumerator` (with explicit fuel). -/
def Enumerator.loop {α : Type} (e : Enumerator α) : Nat → Enumerator.Iterator → List (Nat × Option α)
  | 0, _ => []
  | fuel + 1, it =>
    if it.eqIter e.endIt then []
    else e.deref it :: Enumerator.loop e fuel it.inc

/-- One complete range-for traversal of an `Enumerator`, threading the
adapter state through `begin` and `end`. -/
def Enumerator.traverseS {α : Type} (e : Enumerator α) :
    List (Nat × Option α) × Enumerator α :=
  (e.beginS.2.endS.2.loop (e.beginS.2.endS.2.ref_.length + 1) e.beginS.1, e.beginS.2.endS.2)

/-! Helper lemmas about the embedded operations. -/

theorem Zipper.Iterator.incN_iter (n : Nat) (it : Zipper.Iterator) :
    (Zipper.Iterator.incN n it).iter_ = it.iter_.map (· + n) := by
  induction n generalizing it with
  | zero => simp [Zipper.Iterator.incN]
  | succ n ih =>
      rw [Zipper.Iterator.incN, ih]
      simp only [Zipper.Iterator.increment, List.map_map]
      have hc : ((· + n) ∘ (· + 1) : Nat → Nat) = (· + (n + 1)) := by
        funext x; simp [Function.comp]; omega
      rw [hc]

theorem Zipper.cursor_iter {α : Type} (z : Zipper α) (i : Nat) :
    (Zipper.Iterator.incN i z.begin).iter_ = z.tpl_.map (fun _ => i) := by
  rw [Zipper.Iterator.incN_iter]
  simp [Zipper.begin, List.map_map]

theorem foldl_min_le (l : List Nat) (a : Nat) :
    l.foldl min a ≤ a ∧ ∀ x ∈ l, l.foldl min a ≤ x := by
  induction l generalizing a with
  | nil => simp
  | cons b l ih =>
      refine ⟨le_trans (ih (min a b)).1 (min_le_left a b), ?_⟩
      intro x hx
      rcases List.mem_cons.mp hx with rfl | hx
      · exact le_trans (ih (min a x)).1 (min_le_right a x)
      · exact (ih (min a b)).2 x hx

theorem foldl_min_attained (l : List Nat) (a : Nat) :
    l.foldl min a = a ∨ l.foldl min a ∈ l := by
  induction l generalizing a with
  | nil => simp
  | cons b l ih =>
      rcases ih (min a b) with h | h
      · rcases Nat.le_total a b with hab | hab
        · left
          rw [List.foldl_cons, h, min_eq_left hab]
        · right
          rw [List.foldl_cons, h, min_eq_right hab]
          exact List.mem_cons_self b l
      · right
        exact List.mem_cons_of_mem b h

theorem Zipper.size_le {α : Type} (z : Zipper α) (s : List α) (hs : s ∈ z.tpl_) :
    z.size ≤ s.length := by
  rcases z with ⟨tpl⟩
  cases tpl with
  | nil => cases hs
  | cons t ts =>
      show (ts.map List.length).foldl min t.length ≤ s.length
      rcases List.mem_cons.mp hs with rfl | hs
      · exact (foldl_min_le (ts.map List.length) s.length).1
      · exact (foldl_min_le (ts.map List.length) t.length).2 s.length
          (List.mem_map_of_mem List.length hs)

theorem Zipper.size_attained {α : Type} (z : Zipper α) (h : z.tpl_ ≠ []) :
    ∃ s ∈ z.tpl_, s.length = z.size := by
  rcases z with ⟨tpl⟩
  cases tpl with
  | nil => exact absurd rfl h
  | cons t ts =>
      have hsz : Zipper.size ⟨t :: ts⟩ = (ts.map List.length).foldl min t.length := rfl
      rcases foldl_min_attained (ts.map List.length) t.length with he | he
      · exact ⟨t, List.mem_cons_self t ts, by rw [hsz, he]⟩
      · rcases List.mem_map.mp he with ⟨s, hs, hlen⟩
        exact ⟨s, List.mem_cons_of_mem t hs, by rw [hsz, hlen]⟩

theorem Zipper.Iterator.isEnd_iff (a : Zipper.Iterator) (e : Zipper.EndIterator) :
    a.isEnd e = true ↔
      ∃ j, ∃ (h1 : j < a.iter_.length) (h2 : j < e.iter_.length),
        a.iter_[j] = e.iter_[j] := by
  unfold Zipper.Iterator.isEnd
  rw [List.any_eq_true]
  constructor
  · rintro ⟨x, hx, hpx⟩
    rcases List.mem_map.mp hx with ⟨p, hp, rfl⟩
    rcases List.mem_iff_getElem.mp hp with ⟨j, hj, hpj⟩
    have hj1 : j < a.iter_.length := by
      rw [List.length_zip] at hj; exact lt_of_lt_of_le hj inf_le_left
    have hj2 : j < e.iter_.length := by
      rw [List.length_zip] at hj; exact lt_of_lt_of_le hj inf_le_right
    refine ⟨j, hj1, hj2, ?_⟩
    rw [List.getElem_zip] at hpj
    subst hpj
    simpa using hpx
  · rintro ⟨j, h1, h2, heq⟩
    have hj : j < (a.iter_.zip e.iter_).length := by
      rw [List.length_zip]; exact lt_inf_iff.mpr ⟨h1, h2⟩
    refine ⟨(fun p => p.1 == p.2) ((a.iter_.zip e.iter_)[j]), ?_, ?_⟩
    · exact List.mem_map_of_mem _ (List.getElem_mem hj)
    · rw [List.getElem_zip]
      simpa using heq

theorem Zipper.cursor_isEnd_iff {α : Type} (ss : List (List α)) (i : Nat) :
    (Zipper.Iterator.incN i (Zipper.mk ss).begin).isEnd (Zipper.mk ss).endIt = true ↔
      ∃ s ∈ ss, s.length = i := by
  unfold Zipper.Iterator.isEnd
  rw [Zipper.cursor_iter, show (Zipper.mk ss).endIt.iter_ = ss.map List.length from rfl,
    List.zip_map', List.map_map, List.any_eq_true]
  constructor
  · rintro ⟨x, hx, hpx⟩
    rcases List.mem_map.mp hx with ⟨s, hs, rfl⟩
    refine ⟨s, hs, ?_⟩
    have : i = s.length := by simpa [Function.comp] using hpx
    omega
  · rintro ⟨s, hs, hlen⟩
    refine ⟨(i == s.length), ?_, ?_⟩
    · have : ((fun p => p.1 == p.2) ∘ fun a => (i, a.length)) s = (i == s.length) := rfl
      rw [← this]
      exact List.mem_map_of_mem _ hs
    · simp [hlen]

theorem Enumerator.Iterator.incN_fields (n : Nat) (it : Enumerator.Iterator) :
    (Enumerator.Iterator.incN n it).step_ = it.step_ ∧
    (Enumerator.Iterator.incN n it).iter_ = it.iter_ + n := by
  induction n generalizing it with
  | zero => simp [Enumerator.Iterator.incN]
  | succ n ih =>
      rw [Enumerator.Iterator.incN]
      rcases ih it.inc with ⟨hs, hi⟩
      refine ⟨hs, ?_⟩
      rw [hi]
      show it.iter_ + 1 + n = it.iter_ + (n + 1)
      omega

theorem Enumerator.Iterator.incN_index (n : Nat) (it : Enumerator.Iterator)
    (h : it.index_ < W) :
    (Enumerator.Iterator.incN n it).index_ = (it.index_ + n * it.step_) % W := by
  induction n generalizing it with
  | zero => simpa [Enumerator.Iterator.incN] using (Nat.mod_eq_of_lt h).symm
  | succ n ih =>
      rw [Enumerator.Iterator.incN]
      have hlt : it.inc.index_ < W := by
        have : 0 < W := by decide
        exact Nat.mod_lt _ this
      rw [ih it.inc hlt]
      show ((it.index_ + it.step_) % W + n * it.step_) % W
        = (it.index_ + (n + 1) * it.step_) % W
      rw [Nat.mod_add_mod]
      ring_nf

theorem ZipEnumerator.Iterator.zipIncN_fields (n : Nat) (it : ZipEnumerator.Iterator) :
    (ZipEnumerator.Iterator.incN n it).step_ = it.step_ ∧
    (ZipEnumerator.Iterator.incN n it).iter_ = Zipper.Iterator.incN n it.iter_ := by
  induction n generalizing it with
  | zero => simp [ZipEnumerator.Iterator.incN, Zipper.Iterator.incN]
  | succ n ih =>
      rw [ZipEnumerator.Iterator.incN, Zipper.Iterator.incN]
      rcases ih it.inc with ⟨hs, hi⟩
      exact ⟨hs, hi⟩

theorem ZipEnumerator.Iterator.zipIncN_index (n : Nat) (it : ZipEnumerator.Iterator)
    (h : it.index_ < W) :
    (ZipEnumerator.Iterator.incN n it).index_ = (it.index_ + n * it.step_) % W := by
  induction n generalizing it with
  | zero => simpa [ZipEnumerator.Iterator.incN] using (Nat.mod_eq_of_lt h).symm
  | succ n ih =>
      rw [ZipEnumerator.Iterator.incN]
      have hlt : it.inc.index_ < W := by
        have : 0 < W := by decide
        exact Nat.mod_lt _ this
      rw [ih it.inc hlt]
      show ((it.index_ + it.step_) % W + n * it.step_) % W
        = (it.index_ + (n + 1) * it.step_) % W
      rw [Nat.mod_add_mod]
      ring_nf

theorem toSizeT_lt (v : Int) : toSizeT v < W := by
  unfold toSizeT
  have h0 : (0 : Int) ≤ v % (W : Int) := Int.emod_nonneg v (by norm_num [W])
  have h1 : v % (W : Int) < (W : Int) := Int.emod_lt_of_pos v (by norm_num [W])
  omega

theorem toSizeT_neg (v : Int) (hlo : -(W : Int) ≤ v) (hhi : v < 0) :
    (toSizeT v : Int) = v + W := by
  unfold toSizeT
  have he : v % (W : Int) = (v + W) % W := by
    have h := Int.add_mul_emod_self_left v (W : Int) 1
    rw [Int.mul_one] at h
    exact h.symm
  have he2 : (v + (W : Int)) % W = v + W :=
    Int.emod_eq_of_lt (by omega) (by omega)
  rw [he, he2, Int.toNat_of_nonneg (by omega)]

theorem toSizeT_nonneg (v : Int) (hlo : 0 ≤ v) (hhi : v < (W : Int)) :
    (toSizeT v : Int) = v := by
  unfold toSizeT
  rw [Int.emod_eq_of_lt hlo hhi, Int.toNat_of_nonneg hlo]

theorem Enumerator.eqEnd_iff {α : Type} (src : List α) (S K j : Nat) :
    (Enumerator.Iterator.incN j (Enumerator.mk src S K).begin).eqIter
      (Enumerator.mk src S K).endIt = true ↔ j = src.length := by
  have hit := (Enumerator.Iterator.incN_fields j (Enumerator.mk src S K).begin).2
  unfold Enumerator.Iterator.eqIter
  rw [hit]
  show ((0 + j : Nat) == src.length) = true ↔ j = src.length
  simp

/-! Claim theorems. -/

/-- Claim C3: for N ≥ 1 source sequences, a full Combiner traversal visits
exactly `min(L1..LN)` positions — the cursor obtained after `i` advances from
`begin` does not compare equal to the end-marker for `i < min(L1..LN)`, and
does compare equal at `i = min(L1..LN)`; moreover every advance moves every
per-source position forward by one step, unconditionally. -/
theorem claim_C3_zipper_traversal_min {α : Type} (ss : List (List α)) (h : 0 < ss.length) :
    (∀ i, i < (Zipper.mk ss).size →
        (Zipper.Iterator.incN i (Zipper.mk ss).begin).isEnd (Zipper.mk ss).endIt = false) ∧
    (Zipper.Iterator.incN (Zipper.mk ss).size (Zipper.mk ss).begin).isEnd
        (Zipper.mk ss).endIt = true ∧
    (∀ it : Zipper.Iterator, it.increment.iter_ = it.iter_.map (· + 1)) := by
  refine ⟨?_, ?_, fun it => rfl⟩
  · intro i hi
    rw [← Bool.not_eq_true]
    intro hend
    rcases (Zipper.cursor_isEnd_iff ss i).mp hend with ⟨s, hs, hlen⟩
    have hle : (Zipper.mk ss).size ≤ s.length := Zipper.size_le _ _ hs
    omega
  · apply (Zipper.cursor_isEnd_iff ss _).mpr
    exact Zipper.size_attained (Zipper.mk ss) (by
      intro hnil
      rw [show (Zipper.mk ss).tpl_ = ss from rfl] at hnil
      subst hnil
      exact absurd h (by simp))

/-- Witness for claim C3 at the two sources `[1, 2]` and `[10, 20, 30]`. -/
theorem claim_C3_witness :
    0 < ([[1, 2], [10, 20, 30]] : List (List Nat)).length ∧
    ((∀ i, i < (Zipper.mk [[1, 2], [10, 20, 30]]).size →
        (Zipper.Iterator.incN i (Zipper.mk ([[1, 2], [10, 20, 30]] : List (List Nat))).begin).isEnd
          (Zipper.mk [[1, 2], [10, 20, 30]]).endIt = false) ∧
      (Zipper.Iterator.incN (Zipper.mk ([[1, 2], [10, 20, 30]] : List (List Nat))).size
          (Zipper.mk [[1, 2], [10, 20, 30]]).begin).isEnd
          (Zipper.mk [[1, 2], [10, 20, 30]]).endIt = true ∧
      (∀ it : Zipper.Iterator, it.increment.iter_ = it.iter_.map (· + 1))) :=
  ⟨by decide, claim_C3_zipper_traversal_min [[1, 2], [10, 20, 30]] (by decide)⟩

/-- Claim C4: equality between a live Combiner cursor and the end-marker
cursor holds exactly when at least one per-source position of the live cursor
equals the corresponding per-source position of the end-marker. -/
theorem claim_C4_end_equality_any (a : Zipper.Iterator) (e : Zipper.EndIterator)
    (hlen : a.iter_.length = e.iter_.length) :
    a.isEnd e = true ↔
      ∃ j, j < a.iter_.length ∧ a.iter_.getD j 0 = e.iter_.getD j 0 := by
  rw [Zipper.Iterator.isEnd_iff]
  constructor
  · rintro ⟨j, h1, h2, heq⟩
    refine ⟨j, h1, ?_⟩
    rw [List.getD_eq_getElem?_getD, List.getD_eq_getElem?_getD,
      List.getElem?_eq_getElem h1, List.getElem?_eq_getElem h2]
    simpa using heq
  · rintro ⟨j, h1, heq⟩
    have h2 : j < e.iter_.length := hlen ▸ h1
    refine ⟨j, h1, h2, ?_⟩
    rw [List.getD_eq_getElem?_getD, List.getD_eq_getElem?_getD,
      List.getElem?_eq_getElem h1, List.getElem?_eq_getElem h2] at heq
    simpa using heq

/-- Witness for claim C4: a cursor over two sources whose second position is
at its end. -/
theorem claim_C4_witness :
    (Zipper.Iterator.mk [1, 2]).iter_.length = (Zipper.EndIterator.mk [3, 2]).iter_.length ∧
    ((Zipper.Iterator.mk [1, 2]).isEnd (Zipper.EndIterator.mk [3, 2]) = true ↔
      ∃ j, j < (Zipper.Iterator.mk [1, 2]).iter_.length ∧
        (Zipper.Iterator.mk [1, 2]).iter_.getD j 0 = (Zipper.EndIterator.mk [3, 2]).iter_.getD j 0) :=
  ⟨by decide, claim_C4_end_equality_any ⟨[1, 2]⟩ ⟨[3, 2]⟩ (by decide)⟩

/-- Claim C5: for an Indexer over a single source of length L with
start_index S and step K, the i-th produced pair equals (S + i*K, source[i])
for every i in [0, L) (whenever the `size_t` index arithmetic stays in range,
which includes K = 0 giving a constant index), and the cursor compares equal
to the end cursor exactly after L advances, for every S and K — the
traversal length is governed entirely by the source. -/
theorem claim_C5_enumerator_single_pairs {α : Type} (src : List α) (S K : Nat)
    (hS : S < W) :
    (∀ i, i < src.length → S + i * K < W →
        (Enumerator.mk src S K).deref
            (Enumerator.Iterator.incN i (Enumerator.mk src S K).begin)
          = (S + i * K, src[i]?)) ∧
    (∀ j, (Enumerator.Iterator.incN j (Enumerator.mk src S K).begin).eqIter
        (Enumerator.mk src S K).endIt = true ↔ j = src.length) := by
  refine ⟨?_, fun j => Enumerator.eqEnd_iff src S K j⟩
  intro i hi hrange
  have hit := (Enumerator.Iterator.incN_fields i (Enumerator.mk src S K).begin).2
  have hidx := Enumerator.Iterator.incN_index i (Enumerator.mk src S K).begin hS
  unfold Enumerator.deref
  rw [hidx, hit]
  show ((S + i * K) % W, src[0 + i]?) = (S + i * K, src[i]?)
  rw [Nat.mod_eq_of_lt hrange, Nat.zero_add]

/-- Witness for claim C5 over the source [5, 6, 7] with start_index 2 and
step 0. -/
theorem claim_C5_witness :
    2 < W ∧
    ((∀ i, i < ([5, 6, 7] : List Nat).length → 2 + i * 0 < W →
        (Enumerator.mk ([5, 6, 7] : List Nat) 2 0).deref
            (Enumerator.Iterator.incN i (Enumerator.mk ([5, 6, 7] : List Nat) 2 0).begin)
          = (2 + i * 0, ([5, 6, 7] : List Nat)[i]?)) ∧
      (∀ j, (Enumerator.Iterator.incN j (Enumerator.mk ([5, 6, 7] : List Nat) 2 0).begin).eqIter
          (Enumerator.mk ([5, 6, 7] : List Nat) 2 0).endIt = true ↔ j = ([5, 6, 7] : List Nat).length)) :=
  ⟨by decide, claim_C5_enumerator_single_pairs [5, 6, 7] 2 0 (by decide)⟩

/-- Claim C6: Indexer cursor equality is defined solely by equality of the
inner source cursor, for both the single-source Indexer and the
Indexer-over-Combiner: replacing the running index (and step) on either side
of the comparison never changes its result, and the comparison holds exactly
when the inner cursors are equal — so the index value stored in the end
cursor has no effect on when traversal terminates. -/
theorem claim_C6_equality_ignores_index :
    (∀ (a b : Enumerator.Iterator) (i1 i2 s1 s2 : Nat),
        (Enumerator.Iterator.mk i1 s1 a.iter_).eqIter ⟨i2, s2, b.iter_⟩ = a.eqIter b) ∧
    (∀ (a b : Enumerator.Iterator), a.eqIter b = true ↔ a.iter_ = b.iter_) ∧
    (∀ (a b : ZipEnumerator.Iterator) (i1 i2 s1 s2 : Nat),
        (ZipEnumerator.Iterator.mk i1 s1 a.iter_).eqIter ⟨i2, s2, b.iter_⟩ = a.eqIter b) ∧
    (∀ (a b : ZipEnumerator.Iterator), a.eqIter b = true ↔ a.iter_.iter_ = b.iter_.iter_) := by
  refine ⟨fun a b i1 i2 s1 s2 => rfl, ?_, fun a b i1 i2 s1 s2 => rfl, ?_⟩
  · intro a b
    unfold Enumerator.Iterator.eqIter
    simp
  · intro a b
    unfold ZipEnumerator.Iterator.eqIter Zipper.Iterator.eqIter
    simp

/-- Claim C9: the running index and step are unsigned 64-bit (`size_t`)
values, so index arithmetic is performed modulo 2^64; a negative start_index
or step is converted to its 2^64-complement at the call; the i-th index is
(S + i*K) mod 2^64 for the converted values S and K, for every i. -/
theorem claim_C9_index_modular {α : Type} (src : List α) (s k : Int) (i : Nat)
    (hs : -(W : Int) ≤ s) (hk : -(W : Int) ≤ k) :
    (Enumerator.Iterator.incN i
        (Enumerator.mk src (toSizeT s) (toSizeT k)).begin).index_
      = (toSizeT s + i * toSizeT k) % W ∧
    (s < 0 → (toSizeT s : Int) = s + W) ∧
    (k < 0 → (toSizeT k : Int) = k + W) ∧
    toSizeT s < W ∧ toSizeT k < W := by
  refine ⟨?_, fun h => toSizeT_neg s hs h, fun h => toSizeT_neg k hk h,
    toSizeT_lt s, toSizeT_lt k⟩
  have hidx := Enumerator.Iterator.incN_index i
    (Enumerator.mk src (toSizeT s) (toSizeT k)).begin (toSizeT_lt s)
  exact hidx

/-- Witness for claim C9 at source [0, 1], start_index -3, step -1, i = 2. -/
theorem claim_C9_witness :
    -(W : Int) ≤ -3 ∧ -(W : Int) ≤ -1 ∧
    ((Enumerator.Iterator.incN 2
        (Enumerator.mk ([0, 1] : List Nat) (toSizeT (-3)) (toSizeT (-1))).begin).index_
      = (toSizeT (-3) + 2 * toSizeT (-1)) % W ∧
    ((-3 : Int) < 0 → (toSizeT (-3) : Int) = -3 + W) ∧
    ((-1 : Int) < 0 → (toSizeT (-1) : Int) = -1 + W) ∧
    toSizeT (-3) < W ∧ toSizeT (-1) < W) :=
  ⟨by decide, by decide, claim_C9_index_modular [0, 1] (-3) (-1) 2 (by decide) (by decide)⟩

/-- Counterexample to claim C2 as stated: the index type is the unsigned
`size_t`, not a signed type, and a negative step does not produce a
decreasing index sequence in general — with start_index 0 and step -1 the
second index is 2^64 - 1, which is not less than the first index 0. -/
theorem claim_C2_counterexample :
    ¬ ((Enumerator.Iterator.incN 1
          (Enumerator.mk (["x", "y", "z"] : List String) 0 (toSizeT (-1))).begin).index_
        < (Enumerator.Iterator.incN 0
          (Enumerator.mk (["x", "y", "z"] : List String) 0 (toSizeT (-1))).begin).index_) := by
  decide

/-- Claim C2 (amended): step -1 is accepted by converting it to its
2^64-complement — the index type is the unsigned `size_t`, so the indices
evolve modulo 2^64 rather than as signed values.
index(["x","y","z"], start_index=10, step=-1) still yields exactly
(10,"x"), (9,"y"), (8,"z") and terminates after 3 steps, and in general with
step -1 the i-th index is S - i, a decreasing sequence, as long as i ≤ S
(no wrap below zero). -/
theorem claim_C2_amended :
    ((Enumerator.mk (["x", "y", "z"] : List String) 10 (toSizeT (-1))).deref
        (Enumerator.Iterator.incN 0
          (Enumerator.mk (["x", "y", "z"] : List String) 10 (toSizeT (-1))).begin)
      = (10, some "x")) ∧
    ((Enumerator.mk (["x", "y", "z"] : List String) 10 (toSizeT (-1))).deref
        (Enumerator.Iterator.incN 1
          (Enumerator.mk (["x", "y", "z"] : List String) 10 (toSizeT (-1))).begin)
      = (9, some "y")) ∧
    ((Enumerator.mk (["x", "y", "z"] : List String) 10 (toSizeT (-1))).deref
        (Enumerator.Iterator.incN 2
          (Enumerator.mk (["x", "y", "z"] : List String) 10 (toSizeT (-1))).begin)
      = (8, some "z")) ∧
    (∀ j, (Enumerator.Iterator.incN j
          (Enumerator.mk (["x", "y", "z"] : List String) 10 (toSizeT (-1))).begin).eqIter
        (Enumerator.mk (["x", "y", "z"] : List String) 10 (toSizeT (-1))).endIt = true
      ↔ j = 3) ∧
    (∀ (S i : Nat) (src : List String), S < W → i ≤ S →
      (Enumerator.Iterator.incN i (Enumerator.mk src S (toSizeT (-1))).begin).index_
        = S - i) := by
  refine ⟨by decide, by decide, by decide, ?_, ?_⟩
  · intro j
    have h := Enumerator.eqEnd_iff (["x", "y", "z"] : List String) 10 (toSizeT (-1)) j
    simpa using h
  · intro S i src hS hi
    have hidx := Enumerator.Iterator.incN_index i (Enumerator.mk src S (toSizeT (-1))).begin hS
    rw [hidx]
    show (S + i * toSizeT (-1)) % W = S - i
    have hm1 : toSizeT (-1) = W - 1 := by decide
    rw [hm1]
    have hWpos : 1 ≤ W := by decide
    have hmul : i * (W - 1) + i = i * W := by
      have h2 : i * (W - 1) + i = i * ((W - 1) + 1) := by ring
      rw [h2, Nat.sub_add_cancel hWpos]
    have hsplit : S + i * (W - 1) = S - i + i * W := by
      conv_lhs => rw [← Nat.sub_add_cancel hi]
      rw [Nat.add_assoc, Nat.add_comm i (i * (W - 1)), hmul]
    rw [hsplit, Nat.add_mul_mod_self_right]
    exact Nat.mod_eq_of_lt (by omega)

/-- Witness for the amended claim C2 at S = 10, i = 2. -/
theorem claim_C2_witness :
    (10 : Nat) < W ∧ (2 : Nat) ≤ 10 ∧
    (Enumerator.Iterator.incN 2
        (Enumerator.mk (["x", "y", "z"] : List String) 10 (toSizeT (-1))).begin).index_
      = 10 - 2 :=
  ⟨by decide, by decide,
    claim_C2_amended.2.2.2.2 10 2 ["x", "y", "z"] (by decide) (by decide)⟩

/-- Claim C1, settled at the failing input (scenario D): for the Indexer over
the Combiner of [1,2] and [10,20,30] with default start_index 0 and step 1,
the pairs produced at steps 0 and 1 are (0,(1,10)) and (1,(2,20)) as the
specification documents, but the cursor never compares equal to the end
cursor built by End() — the comparison of the specialization is
all-components tuple equality, which never holds when the source lengths
differ — so the traversal is not truncated to 2 pairs (and the End() of the
specialization does not even compile, see `ZipEnumerator.endIt`). -/
theorem claim_C1_scenario_d_never_terminates :
    ((ZipEnumerator.mk (Zipper.mk ([[1, 2], [10, 20, 30]] : List (List Nat))) 0 1).deref
        (ZipEnumerator.Iterator.incN 0
          (ZipEnumerator.mk (Zipper.mk ([[1, 2], [10, 20, 30]] : List (List Nat))) 0 1).begin)
      = (0, [some 1, some 10])) ∧
    ((ZipEnumerator.mk (Zipper.mk ([[1, 2], [10, 20, 30]] : List (List Nat))) 0 1).deref
        (ZipEnumerator.Iterator.incN 1
          (ZipEnumerator.mk (Zipper.mk ([[1, 2], [10, 20, 30]] : List (List Nat))) 0 1).begin)
      = (1, [some 2, some 20])) ∧
    (∀ i, (ZipEnumerator.Iterator.incN i
          (ZipEnumerator.mk (Zipper.mk ([[1, 2], [10, 20, 30]] : List (List Nat))) 0 1).begin).eqIter
        (ZipEnumerator.mk (Zipper.mk ([[1, 2], [10, 20, 30]] : List (List Nat))) 0 1).endIt
      = false) := by
  refine ⟨by decide, by decide, ?_⟩
  intro i
  have hf := (ZipEnumerator.Iterator.zipIncN_fields i
    (ZipEnumerator.mk (Zipper.mk ([[1, 2], [10, 20, 30]] : List (List Nat))) 0 1).begin).2
  unfold ZipEnumerator.Iterator.eqIter Zipper.Iterator.eqIter
  rw [hf]
  rw [show (ZipEnumerator.mk (Zipper.mk ([[1, 2], [10, 20, 30]] : List (List Nat))) 0 1).begin.iter_
      = (Zipper.mk ([[1, 2], [10, 20, 30]] : List (List Nat))).begin from rfl]
  rw [Zipper.cursor_iter]
  show (([i, i] : List Nat) == [2, 3]) = false
  rw [beq_eq_false_iff_ne]
  intro hcontra
  rw [List.cons_eq_cons] at hcontra
  rcases hcontra with ⟨h2, h3⟩
  rw [List.cons_eq_cons] at h3
  omega

/-- Claim C10: equality between two live Combiner cursors holds exactly when
all per-source positions are pairwise equal (tuple equality), the
Indexer-over-Combiner's cursor comparison is exactly that live-cursor rule,
and at the discriminating input (sources [1,2] and [10,20,30], cursor after
2 advances, compared against the cursor built by End()) the any-component
end rule accepts while the all-components rule used by the Indexer
rejects. -/
theorem claim_C10_all_components_rule (a b : Zipper.Iterator)
    (hlen : a.iter_.length = b.iter_.length) :
    (a.eqIter b = true ↔
      ∀ j, j < a.iter_.length → a.iter_.getD j 0 = b.iter_.getD j 0) ∧
    (∀ (x y : ZipEnumerator.Iterator), x.eqIter y = x.iter_.eqIter y.iter_) ∧
    ((ZipEnumerator.Iterator.incN 2
        (ZipEnumerator.mk (Zipper.mk ([[1, 2], [10, 20, 30]] : List (List Nat))) 0 1).begin).iter_.isEnd
        (Zipper.mk ([[1, 2], [10, 20, 30]] : List (List Nat))).endIt = true ∧
      (ZipEnumerator.Iterator.incN 2
        (ZipEnumerator.mk (Zipper.mk ([[1, 2], [10, 20, 30]] : List (List Nat))) 0 1).begin).eqIter
        (ZipEnumerator.mk (Zipper.mk ([[1, 2], [10, 20, 30]] : List (List Nat))) 0 1).endIt = false) := by
  refine ⟨?_, fun x y => rfl, by decide, by decide⟩
  unfold Zipper.Iterator.eqIter
  constructor
  · intro h j hj
    have he : a.iter_ = b.iter_ := eq_of_beq h
    rw [he]
  · intro h
    have he : a.iter_ = b.iter_ := by
      refine List.ext_getElem hlen (fun n h1 h2 => ?_)
      have hn := h n h1
      rw [List.getD_eq_getElem?_getD, List.getD_eq_getElem?_getD,
        List.getElem?_eq_getElem h1, List.getElem?_eq_getElem h2] at hn
      simpa using hn
    rw [he]
    simp

/-- Witness for claim C10 at the live cursors with positions [0, 0] and
[0, 1]. -/
theorem claim_C10_witness :
    (Zipper.Iterator.mk [0, 0]).iter_.length = (Zipper.Iterator.mk [0, 1]).iter_.length ∧
    (((Zipper.Iterator.mk [0, 0]).eqIter (Zipper.Iterator.mk [0, 1]) = true ↔
        ∀ j, j < (Zipper.Iterator.mk [0, 0]).iter_.length →
          (Zipper.Iterator.mk [0, 0]).iter_.getD j 0 = (Zipper.Iterator.mk [0, 1]).iter_.getD j 0) ∧
      (∀ (x y : ZipEnumerator.Iterator), x.eqIter y = x.iter_.eqIter y.iter_) ∧
      ((ZipEnumerator.Iterator.incN 2
          (ZipEnumerator.mk (Zipper.mk ([[1, 2], [10, 20, 30]] : List (List Nat))) 0 1).begin).iter_.isEnd
          (Zipper.mk ([[1, 2], [10, 20, 30]] : List (List Nat))).endIt = true ∧
        (ZipEnumerator.Iterator.incN 2
          (ZipEnumerator.mk (Zipper.mk ([[1, 2], [10, 20, 30]] : List (List Nat))) 0 1).begin).eqIter
          (ZipEnumerator.mk (Zipper.mk ([[1, 2], [10, 20, 30]] : List (List Nat))) 0 1).endIt = false)) :=
  ⟨by decide, claim_C10_all_components_rule ⟨[0, 0]⟩ ⟨[0, 1]⟩ (by decide)⟩

/-- Claim C7: dereferencing a non-end Combiner cursor produces a tuple of
references, not copies — writing a value v through the j-th component of the
tuple obtained at the cursor reached after i advances stores v into element i
of source j in place: the sources become `ss.set j ((ss.getD j []).set i v)`,
reading back position i of source j yields v, and every other source and
every other element of source j are unchanged. -/
theorem claim_C7_reference_semantics {α : Type} (ss : List (List α)) (i j : Nat) (v : α)
    (hj : j < ss.length) (hi : i < (Zipper.mk ss).size) :
    ((Zipper.mk ss).writeThrough (Zipper.Iterator.incN i (Zipper.mk ss).begin) j v).tpl_
        = ss.set j ((ss.getD j []).set i v) ∧
    (((Zipper.mk ss).writeThrough (Zipper.Iterator.incN i (Zipper.mk ss).begin) j v).tpl_.getD j [])[i]?
        = some v ∧
    (∀ k, k ≠ j →
      ((Zipper.mk ss).writeThrough (Zipper.Iterator.incN i (Zipper.mk ss).begin) j v).tpl_[k]?
        = ss[k]?) ∧
    (∀ m, m ≠ i →
      (((Zipper.mk ss).writeThrough (Zipper.Iterator.incN i (Zipper.mk ss).begin) j v).tpl_.getD j [])[m]?
        = (ss.getD j [])[m]?) := by
  have hgd : (Zipper.Iterator.incN i (Zipper.mk ss).begin).iter_.getD j 0 = i := by
    rw [Zipper.cursor_iter]
    show (ss.map (fun _ => i)).getD j 0 = i
    rw [List.getD_eq_getElem?_getD, List.getElem?_map, List.getElem?_eq_getElem hj]
    rfl
  have hw : ((Zipper.mk ss).writeThrough (Zipper.Iterator.incN i (Zipper.mk ss).begin) j v).tpl_
      = ss.set j ((ss.getD j []).set i v) := by
    show ss.set j ((ss.getD j []).set
        ((Zipper.Iterator.incN i (Zipper.mk ss).begin).iter_.getD j 0) v)
      = ss.set j ((ss.getD j []).set i v)
    rw [hgd]
  have hilen : i < (ss.getD j []).length := by
    have hmem : ss.getD j [] ∈ ss := by
      rw [List.getD_eq_getElem?_getD, List.getElem?_eq_getElem hj]
      exact List.getElem_mem hj
    exact lt_of_lt_of_le hi (Zipper.size_le _ _ hmem)
  have hsel : (ss.set j ((ss.getD j []).set i v)).getD j [] = (ss.getD j []).set i v := by
    rw [List.getD_eq_getElem?_getD, List.getElem?_set]
    simp [hj]
  refine ⟨hw, ?_, ?_, ?_⟩
  · rw [hw, hsel, List.getElem?_set, if_pos rfl, if_pos hilen]
  · intro k hk
    rw [hw, List.getElem?_set, if_neg (Ne.symm hk)]
  · intro m hm
    rw [hw, hsel, List.getElem?_set, if_neg (Ne.symm hm)]

/-- Witness for claim C7 at sources [1,2] and [10,20,30], cursor step 1,
source 1, written value 99. -/
theorem claim_C7_witness :
    (1 : Nat) < ([[1, 2], [10, 20, 30]] : List (List Nat)).length ∧
    (1 : Nat) < (Zipper.mk ([[1, 2], [10, 20, 30]] : List (List Nat))).size ∧
    (((Zipper.mk ([[1, 2], [10, 20, 30]] : List (List Nat))).writeThrough
          (Zipper.Iterator.incN 1 (Zipper.mk ([[1, 2], [10, 20, 30]] : List (List Nat))).begin) 1 99).tpl_
        = ([[1, 2], [10, 20, 30]] : List (List Nat)).set 1
            ((([[1, 2], [10, 20, 30]] : List (List Nat)).getD 1 []).set 1 99) ∧
      ((((Zipper.mk ([[1, 2], [10, 20, 30]] : List (List Nat))).writeThrough
          (Zipper.Iterator.incN 1 (Zipper.mk ([[1, 2], [10, 20, 30]] : List (List Nat))).begin) 1 99).tpl_.getD 1 [])[1]?
        = some 99) ∧
      (∀ k, k ≠ 1 →
        ((Zipper.mk ([[1, 2], [10, 20, 30]] : List (List Nat))).writeThrough
            (Zipper.Iterator.incN 1 (Zipper.mk ([[1, 2], [10, 20, 30]] : List (List Nat))).begin) 1 99).tpl_[k]?
          = ([[1, 2], [10, 20, 30]] : List (List Nat))[k]?) ∧
      (∀ m, m ≠ 1 →
        (((Zipper.mk ([[1, 2], [10, 20, 30]] : List (List Nat))).writeThrough
            (Zipper.Iterator.incN 1 (Zipper.mk ([[1, 2], [10, 20, 30]] : List (List Nat))).begin) 1 99).tpl_.getD 1 [])[m]?
          = (([[1, 2], [10, 20, 30]] : List (List Nat)).getD 1 [])[m]?)) :=
  ⟨by decide, by decide,
    claim_C7_reference_semantics [[1, 2], [10, 20, 30]] 1 1 99 (by decide) (by decide)⟩

/-- Claim C8: for a Combiner or single-source Indexer over unmutated sources,
no call to begin(), end(), advance or dereference changes the adapter's own
state (each state-threaded operation returns the adapter unchanged), repeated
begin()/end() calls yield equal fresh cursors, and a complete traversal
performed after a prior complete traversal produces the identical sequence of
values. -/
theorem claim_C8_adapters_stateless {α : Type} (z : Zipper α) (e : Enumerator α) :
    (z.beginS.2 = z ∧ z.endS.2 = z ∧
      (∀ it, (z.incS it).2 = z) ∧ (∀ it, (z.getValueS it).2 = z)) ∧
    (e.beginS.2 = e ∧ e.endS.2 = e ∧
      (∀ it, (e.incS it).2 = e) ∧ (∀ it, (e.derefS it).2 = e)) ∧
    (z.beginS.2.beginS.1 = z.beginS.1 ∧ z.beginS.2.endS.1 = z.endS.1) ∧
    (e.beginS.2.beginS.1 = e.beginS.1 ∧ e.beginS.2.endS.1 = e.endS.1) ∧
    (z.traverseS.2 = z ∧ z.traverseS.2.traverseS.1 = z.traverseS.1) ∧
    (e.traverseS.2 = e ∧ e.traverseS.2.traverseS.1 = e.traverseS.1) :=
  ⟨⟨rfl, rfl, fun _ => rfl, fun _ => rfl⟩,
   ⟨rfl, rfl, fun _ => rfl, fun _ => rfl⟩,
   ⟨rfl, rfl⟩, ⟨rfl, rfl⟩, ⟨rfl, rfl⟩, ⟨rfl, rfl⟩⟩

end IzadoriCpp
